import Mathlib

set_option maxRecDepth 40000

/-!
# Verification of the zen Templated File-List Engine

The `zen` repository ships the engine (`zen/files.py`: `FilesList`, `date_seq`,
`delta`) only through its documentation, README and example notebooks
(`src/examples/new_version.ipynb`); the Python module itself is not part of the
source tree given here.  The definitions below are therefore modelled from the
specification's description of each operation, cross-checked against the
concrete behaviour recorded in the notebook outputs (progress counts `96/96`
and `1375/1375`, the generated filenames such as
`wv_..._20201101_20201130_..._v20230619.tif`, and the reconciliation cells).
-/

namespace Zen

/-- Modelled from the spec: one segment of a parsed filename template — either a
literal run of characters or a named `{placeholder}` (zen's template syntax,
spec section 4.1; the implementation in `zen/files.py` is not in the tree). -/
inductive TPart where
  | lit (s : String)
  | ph (name : String)
deriving DecidableEq

/-- Names of the placeholders of a template, in template order. -/
def phNames (parts : List TPart) : List String :=
  parts.filterMap (fun p => match p with | .ph n => some n | .lit _ => none)

/-- All characters occurring in the literal segments of a template. -/
def litChars (parts : List TPart) : List Char :=
  parts.flatMap (fun p => match p with | .lit s => s.data | .ph _ => [])

/-- No two placeholders are adjacent (a literal separator stands between any
two placeholders), spec section 3's template invariant. -/
def noAdjPh : List TPart → Bool
  | .ph _ :: .ph _ :: _ => false
  | _ :: rest => noAdjPh rest
  | [] => true

/-- Every literal segment is a nonempty string. -/
def litsNonempty (parts : List TPart) : Bool :=
  parts.all (fun p => match p with | .lit s => !s.data.isEmpty | .ph _ => true)

/-- Modelled from the spec: well-formedness of a parsed template — nonempty
literal separators, no adjacent placeholders, distinct placeholder names
(spec sections 3 and 4.1). -/
def wellFormed (parts : List TPart) : Prop :=
  litsNonempty parts = true ∧ noAdjPh parts = true ∧ (phNames parts).Nodup

instance (parts : List TPart) : Decidable (wellFormed parts) := by
  unfold wellFormed; infer_instance

/-- Modelled from the spec: parser state machine for `{name}` placeholder
syntax.  Walks the pattern characters; `inPh` says whether we are inside
braces, `buf` accumulates the current literal run or placeholder name
(reversed), `acc` accumulates parsed parts (reversed).  Unbalanced braces or an
empty placeholder name fail (`MalformedTemplate`, spec section 4.1). -/
def parseTemplateAux : List Char → Bool → List Char → List TPart → Option (List TPart)
  | [], false, buf, acc =>
      some (((if buf.isEmpty then acc else .lit (String.mk buf.reverse) :: acc)).reverse)
  | [], true, _, _ => none
  | '{' :: cs, false, buf, acc =>
      parseTemplateAux cs true [] (if buf.isEmpty then acc else .lit (String.mk buf.reverse) :: acc)
  | '}' :: _, false, _, _ => none
  | '{' :: _, true, _, _ => none
  | '}' :: cs, true, buf, acc =>
      if buf.isEmpty then none
      else parseTemplateAux cs false [] (.ph (String.mk buf.reverse) :: acc)
  | c :: cs, inPh, buf, acc => parseTemplateAux cs inPh (c :: buf) acc

/-- Modelled from the spec: `Template.parse` — splits a pattern string on
`{name}` placeholder syntax and enforces the template invariants
(spec sections 3 and 4.1). -/
def parseTemplate (pattern : String) : Option (List TPart) :=
  match parseTemplateAux pattern.data false [] [] with
  | some parts => if wellFormed parts then some parts else none
  | none => none

/-- Consume an expected literal prefix from the input; `none` when the input
does not start with it. -/
def stripLit : List Char → List Char → Option (List Char)
  | [], cs => some cs
  | _ :: _, [] => none
  | a :: as, c :: cs => if a = c then stripLit as cs else none

/-- Look up a placeholder value by name in a properties mapping. -/
def lookupProp (props : List (String × String)) (n : String) : Option String :=
  (props.find? (fun p => p.1 == n)).map (fun p => p.2)

/-- Modelled from the spec: `Template.format` — substitutes each named value
into its slot, failing when `properties` lacks a required name
(`MissingPlaceholderValue`, spec section 4.1). -/
def formatParts : List TPart → List (String × String) → Option (List Char)
  | [], _ => some []
  | .lit s :: ps, v => (formatParts ps v).map (fun rest => s.data ++ rest)
  | .ph n :: ps, v =>
      match lookupProp v n with
      | some val =>
          match formatParts ps v with
          | some rest => some (val.data ++ rest)
          | none => none
      | none => none

mutual

/-- Modelled from the spec: `Template.extract` — inverse of `format`,
implemented with exact-match anchors for literal segments and non-greedy
(shortest-first, backtracking) captures for placeholder slots
(spec section 4.1). -/
def extractParts : List TPart → List Char → Option (List (String × String))
  | [], [] => some []
  | [], _ :: _ => none
  | .lit s :: ps, cs =>
      match stripLit s.data cs with
      | some rest => extractParts ps rest
      | none => none
  | .ph n :: ps, cs => phCapture n ps [] cs
termination_by parts cs => (parts.length, cs.length, 1)

/-- Non-greedy capture loop: try the shortest capture first (`acc` holds the
characters captured so far, reversed); extend one character at a time until the
rest of the template matches the rest of the input. -/
def phCapture (n : String) (ps : List TPart) (acc : List Char) (cs : List Char) :
    Option (List (String × String)) :=
  Option.orElse
    ((extractParts ps cs).map (fun rest => (n, String.mk acc.reverse) :: rest))
    (fun _ =>
      match cs with
      | [] => none
      | c :: cs' => phCapture n ps (c :: acc) cs')
termination_by (ps.length + 1, cs.length, 0)

end

/-! ## File entries and file lists -/

/-- Modelled from the spec: the fetch status of one file's metadata —
unresolved, ok, or error with a reason (spec section 3, `FileEntry.metadata`;
`zen/files.py` is not in the tree). -/
inductive Status where
  | unresolved
  | ok
  | err (reason : String)
deriving DecidableEq

/-- Status is `ok`. -/
def Status.isOk : Status → Bool
  | .ok => true
  | _ => false

/-- Status is an error. -/
def Status.isErr : Status → Bool
  | .err _ => true
  | _ => false

/-- Modelled from the spec: one concrete file descriptor — placeholder
properties (insertion order = template order), optional resolved metadata
(`size`, `checksum`) and a fetch status (spec section 3).  The `filename` is
derived (`Template.format(properties)`), not stored. -/
structure FileEntry where
  properties : List (String × String)
  size : Option Nat
  checksum : Option String
  status : Status
deriving DecidableEq

/-- The fresh entry used to seed an empty list before the first expansion. -/
def emptyEntry : FileEntry := ⟨[], none, none, .unresolved⟩

/-- Modelled from the spec: the `FilesList` aggregate of `zen.files` — the
template pattern it was built from, the bound base directory (empty when
unset), and the ordered entries (spec section 3). -/
structure FilesList where
  template : String
  dir : String
  entries : List FileEntry
deriving DecidableEq

/-- Modelled from the spec: `FilesList(template)` — a fresh list with no
entries and no bound directory. -/
def FilesList.fromTemplate (t : String) : FilesList := ⟨t, "", []⟩

/-- Modelled from the spec: `set_dir` binds a base location (spec section 2). -/
def FilesList.set_dir (fl : FilesList) (d : String) : FilesList := { fl with dir := d }

/-- Format a properties mapping through a pattern string, with `""` as the
defect value when the pattern does not parse or a value is missing. -/
def formatD (t : String) (props : List (String × String)) : String :=
  match parseTemplate t with
  | some parts =>
      match formatParts parts props with
      | some cs => String.mk cs
      | none => ""
  | none => ""

/-- Derived filename of an entry of a file list (spec section 3: `filename`
is `Template.format(properties)`). -/
def FilesList.filenameOf (fl : FilesList) (e : FileEntry) : String :=
  formatD fl.template e.properties

/-- Modelled from the spec: `path_list` — ordered list of resolved URLs (base
directory ++ filename), in entry order (spec section 4.5). -/
def FilesList.path_list (fl : FilesList) : List String :=
  fl.entries.map (fun e => fl.dir ++ fl.filenameOf e)

/-! ## Cartesian expansion -/

/-- Shortest length among the value lists of one `expand` call's assignments
(`0` when there are no assignments). -/
def minLen : List (String × List String) → Nat
  | [] => 0
  | (_, vs) :: rest => rest.foldl (fun m p => min m p.2.length) vs.length

/-- Modelled from the spec and the notebook: the value tuples generated by one
`expand` call.  Lists given in the same call are paired element-wise — the
i-th value of every list lands in the same tuple — as witnessed by the
notebook's `1375/1375` progress (5 base entries × 275 paired
start_date/end_date values), not crossed with each other. -/
def valueTuples (assignments : List (String × List String)) :
    List (List (String × String)) :=
  (List.range (minLen assignments)).map
    (fun i => assignments.map (fun p => (p.1, p.2.getD i "")))

/-- An empty base is seeded with one empty entry before expanding
(spec section 4.2). -/
def seedEntries (l : List FileEntry) : List FileEntry :=
  if l.isEmpty then [emptyEntry] else l

/-- Modelled from the spec: `FilesList.expand` — cartesian product of the
existing entries (outer loop) with the value tuples of this call (inner loop),
the newest call varying fastest (spec section 4.2). -/
def FilesList.expand (fl : FilesList) (assignments : List (String × List String)) :
    FilesList :=
  { fl with
    entries :=
      (seedEntries fl.entries).flatMap
        (fun e => (valueTuples assignments).map
          (fun t => { e with properties := e.properties ++ t })) }

/-! ## Errors, merge, filters, data size -/

/-- Modelled from the spec: the error taxonomy of the engine that the claims
touch (spec section 7). -/
inductive ZenError where
  | UnresolvedMetadata
  | TemplateMismatch
  | CacheCorrupt
  | FetchAborted (reason : String)
deriving DecidableEq

/-- Modelled from the spec: `merge` — requires structurally equal parsed
templates, and concatenates `a`'s entries with `b`'s (union, not product);
fails with `TemplateMismatch` otherwise (spec section 4.2). -/
def FilesList.merge (a b : FilesList) : Except ZenError FilesList :=
  if parseTemplate a.template = parseTemplate b.template then
    .ok { a with entries := a.entries ++ b.entries }
  else
    .error .TemplateMismatch

/-- The field a reconciliation call matches on (spec section 4.5). -/
inductive Field where
  | filename
  | checksum
deriving DecidableEq

/-- Modelled from the spec: one record of a reference collection — anything
exposing at least the matched field (spec section 6, reconciliation input
contract). -/
structure RefRec where
  filename : String
  checksum : Option String
deriving DecidableEq

/-- The matched field's value on a reference record. -/
def fieldOfRef (f : Field) (r : RefRec) : Option String :=
  match f with
  | .filename => some r.filename
  | .checksum => r.checksum

/-- The matched field's value on an entry of a file list (`filename` is the
derived one). -/
def FilesList.fieldOf (fl : FilesList) (f : Field) (e : FileEntry) : Option String :=
  match f with
  | .filename => some (fl.filenameOf e)
  | .checksum => e.checksum

/-- Modelled from the spec: `filter_matched` — keeps the entries whose field
value is a member of the set of the reference collection's field values
(spec section 4.5). -/
def FilesList.filter_matched (fl : FilesList) (R : List RefRec) (f : Field) : FilesList :=
  { fl with
    entries := fl.entries.filter (fun e => (R.map (fieldOfRef f)).contains (fl.fieldOf f e)) }

/-- Modelled from the spec: `filter_unmatched` — keeps the entries whose field
value is not a member of the set of the reference collection's field values
(spec section 4.5). -/
def FilesList.filter_unmatched (fl : FilesList) (R : List RefRec) (f : Field) : FilesList :=
  { fl with
    entries :=
      fl.entries.filter (fun e => !((R.map (fieldOfRef f)).contains (fl.fieldOf f e))) }

/-- Modelled from the spec: `data_size` — the sum of resolved sizes over all
entries, failing with `UnresolvedMetadata` when any entry's status is not `ok`
(spec section 4.5). -/
def FilesList.data_size (fl : FilesList) : Except ZenError Nat :=
  if fl.entries.all (fun e => e.status.isOk) then
    .ok ((fl.entries.map (fun e => e.size.getD 0)).sum)
  else
    .error .UnresolvedMetadata

/-! ## Remote metadata fetch -/

/-- A successful metadata probe's payload (spec section 6, metadata probe
contract). -/
structure ProbeResult where
  size : Nat
  checksum : String
deriving DecidableEq

/-- A probe outcome is a success. -/
def probeOk : Except String ProbeResult → Bool
  | .ok _ => true
  | .error _ => false

/-- The size carried by a successful probe outcome (`0` on failure). -/
def probeSize : Except String ProbeResult → Nat
  | .ok r => r.size
  | .error _ => 0

/-- The status a probe outcome induces on its entry. -/
def probeStatus : Except String ProbeResult → Status
  | .ok _ => .ok
  | .error m => .err m

/-- Modelled from the spec: resolving one entry from its probe outcome — on
success the size and checksum are written and the status becomes `ok`; on
failure the status records the error reason (spec section 4.3). -/
def fetchEntry (probe : FileEntry → Except String ProbeResult) (e : FileEntry) :
    FileEntry :=
  match probe e with
  | .ok r => { e with size := some r.size, checksum := some r.checksum, status := .ok }
  | .error m => { e with status := .err m }

/-- Modelled from the spec: `fetch` — one probe per entry, results written back
to the same positional slot.  Under `stop_on_error = true` any failure aborts
the whole call with `FetchAborted`; under `false` failures are recorded in-band
on the entries and the call returns all of them (spec section 4.3; the bounded
worker pool is a scheduling detail with no observable effect on the result
slots, so the model is the per-slot function). -/
def fetch (probe : FileEntry → Except String ProbeResult) (stopOnError : Bool)
    (entries : List FileEntry) : Except ZenError (List FileEntry) :=
  if stopOnError then
    if entries.all (fun e => probeOk (probe e)) then
      .ok (entries.map (fetchEntry probe))
    else
      .error (.FetchAborted "probe failed")
  else
    .ok (entries.map (fetchEntry probe))

/-! ## Cache store -/

/-- Modelled from the spec: one serialized entry of a cache record
(spec sections 3 and 6: properties, filename, size, checksum, status). -/
structure CacheEntry where
  properties : List (String × String)
  filename : String
  size : Option Nat
  checksum : Option String
  status : Status
deriving DecidableEq

/-- Modelled from the spec: the on-disk cache record — the template pattern
string, the bound directory, and the serialized entries (spec section 3). -/
structure CacheRecord where
  template : String
  dir : String
  entries : List CacheEntry
deriving DecidableEq

/-- Modelled from the spec: `save` — serializes a file list to a cache record,
recording each entry's derived filename (spec section 4.4). -/
def save (fl : FilesList) : CacheRecord :=
  ⟨fl.template, fl.dir,
    fl.entries.map (fun e =>
      ⟨e.properties, formatD fl.template e.properties, e.size, e.checksum, e.status⟩)⟩

/-- Modelled from the spec: `load` — deserializes a cache record, failing with
`CacheCorrupt` when the recorded template does not parse or any recorded
filename differs from `Template.format` of the recorded properties
(spec section 4.4). -/
def load (rec : CacheRecord) : Except ZenError FilesList :=
  if (parseTemplate rec.template).isSome
      && rec.entries.all (fun ce => ce.filename == formatD rec.template ce.properties) then
    .ok ⟨rec.template, rec.dir,
      rec.entries.map (fun ce => ⟨ce.properties, ce.size, ce.checksum, ce.status⟩)⟩
  else
    .error .CacheCorrupt

/-! ## Date sequences -/

/-- A calendar date (year, month 1..12, day 1..monthLength). -/
structure Date where
  y : Nat
  m : Nat
  d : Nat
deriving DecidableEq

/-- Leap year predicate of the Gregorian calendar. -/
def isLeap (y : Nat) : Bool :=
  (y % 4 == 0 && y % 100 != 0) || y % 400 == 0

/-- Length in days of a month of a year. -/
def monthLen (y m : Nat) : Nat :=
  if m = 2 then (if isLeap y then 29 else 28)
  else if m = 4 ∨ m = 6 ∨ m = 9 ∨ m = 11 then 30
  else 31

/-- Modelled from the spec: `delta` — a calendar step built from named
day/week/month/year units (spec section 4.6). -/
structure Delta where
  years : Nat
  months : Nat
  weeks : Nat
  days : Nat
deriving DecidableEq

/-- Convenience constructor matching the keyword style of `delta(months=1)`. -/
def delta (years months weeks days : Nat) : Delta := ⟨years, months, weeks, days⟩

/-- Add a number of months to a date, clamping the day to the target month's
length (the month-length handling of calendar deltas, spec section 4.6). -/
def addMonths (dt : Date) (k : Nat) : Date :=
  let tot := dt.y * 12 + (dt.m - 1) + k
  let y := tot / 12
  let m := tot % 12 + 1
  ⟨y, m, min dt.d (monthLen y m)⟩

/-- The day after a date. -/
def nextDay (dt : Date) : Date :=
  if dt.d < monthLen dt.y dt.m then ⟨dt.y, dt.m, dt.d + 1⟩
  else if dt.m < 12 then ⟨dt.y, dt.m + 1, 1⟩
  else ⟨dt.y + 1, 1, 1⟩

/-- Add a number of days to a date. -/
def addDays (dt : Date) : Nat → Date
  | 0 => dt
  | n + 1 => addDays (nextDay dt) n

/-- The i-th step of a date sequence: `start + i * delta`, months and years
first (day clamped once), then days — matching the generated filenames in the
notebook (`..._20201101_20201130_...`: the end date `20000131 + 250 months`
clamps to Nov 30, which only the non-cumulative reading produces). -/
def addDelta (s : Date) (δ : Delta) (i : Nat) : Date :=
  addDays (addMonths s (i * (δ.years * 12 + δ.months))) (i * (δ.weeks * 7 + δ.days))

/-- Numeric `yyyymmdd` code of a date; the codes of valid dates are ordered as
the calendar is. -/
def Date.code (dt : Date) : Nat := dt.y * 10000 + dt.m * 100 + dt.d

/-- Decimal value of a digit string, most significant first. -/
def parseNatChars : List Char → Nat → Nat
  | [], n => n
  | c :: cs, n => parseNatChars cs (n * 10 + (c.toNat - 48))

/-- Parse an 8-digit `yyyymmdd` string into a date. -/
def parseDate (s : String) : Date :=
  let n := parseNatChars s.data 0
  ⟨n / 10000, n / 100 % 100, n % 100⟩

/-- Fuel-bounded generation loop of `date_seq`: emit `start + i * delta` while
it does not exceed the end date. -/
def dateSeqAux (δ : Delta) (s e : Date) : Nat → Nat → List Date
  | 0, _ => []
  | fuel + 1, i =>
      let cur := addDelta s δ i
      if cur.code ≤ e.code then cur :: dateSeqAux δ s e fuel (i + 1) else []

/-- Modelled from the spec: `date_seq(start, end, step)` — the inclusive-start
sequence `start, start+step, start+2*step, ...` of `yyyymmdd` codes, stopping
so that the last generated value does not exceed `end` (spec section 4.6).
The fuel bounds the generated count by more than a day-per-step walk of the
year range could need. -/
def date_seq (start stop : String) (δ : Delta) : List Nat :=
  (dateSeqAux δ (parseDate start) (parseDate stop)
    (366 * ((parseDate stop).y + 1 - (parseDate start).y) + 64) 0).map Date.code

/-! ## Helper lemmas -/

theorem length_flatMap_const {α β : Type} (l : List α) (f : α → List β) (k : Nat)
    (h : ∀ a, (f a).length = k) : (l.flatMap f).length = l.length * k := by
  induction l with
  | nil => simp
  | cons a t ih => simp [List.flatMap_cons, h, ih, Nat.succ_mul, Nat.add_comm]

theorem length_valueTuples (assignments : List (String × List String)) :
    (valueTuples assignments).length = minLen assignments := by
  simp [valueTuples]

theorem minLen_single (name : String) (values : List String) :
    minLen [(name, values)] = values.length := rfl

theorem seedEntries_of_ne_nil {l : List FileEntry} (h : l ≠ []) :
    seedEntries l = l := by
  simp [seedEntries, List.isEmpty_iff, h]

/-! ## C3: expansion cardinality -/

/-- C3 counterexample: the claim "a base of `n` entries yields exactly `n*k`
entries" fails at `n = 0` — expanding a fresh, empty `FilesList` with a
single-value list yields 1 entry, not `0 * 1 = 0`, because an empty base is
seeded with one empty entry first. -/
theorem expand_cardinality_empty_cex :
    ((FilesList.fromTemplate "{a}").expand [("a", ["v"])]).entries.length ≠
      (FilesList.fromTemplate "{a}").entries.length * 1 := by decide

/-- C3 (amended): for every `FilesList` base with `n ≥ 1` entries and every
`expand` call assigning one placeholder name a list of `k` values, the
resulting `FilesList` has exactly `n * k` entries. -/
theorem expand_cardinality (fl : FilesList) (name : String) (values : List String)
    (h : fl.entries ≠ []) :
    (fl.expand [(name, values)]).entries.length =
      fl.entries.length * values.length := by
  unfold FilesList.expand
  rw [seedEntries_of_ne_nil h]
  exact length_flatMap_const _ _ _ (fun a => by
    simp [List.length_map, length_valueTuples, minLen_single])

/-- C3 witness: a base of 2 entries expanded with 3 values yields 6 entries. -/
theorem expand_cardinality_witness :
    (FilesList.mk "{a}_{b}" "" [⟨[("a", "u")], none, none, .unresolved⟩,
        ⟨[("a", "w")], none, none, .unresolved⟩]).entries ≠ [] ∧
    ((FilesList.mk "{a}_{b}" "" [⟨[("a", "u")], none, none, .unresolved⟩,
        ⟨[("a", "w")], none, none, .unresolved⟩]).expand
      [("b", ["1", "2", "3"])]).entries.length = 2 * 3 :=
  ⟨by decide, expand_cardinality _ "b" ["1", "2", "3"] (by decide)⟩

/-! ## C8: the first expansion of an empty list -/

/-- C8: calling `expand` on a `FilesList` with zero entries seeds the base with
a single empty entry, so the very first `expand` call with a list of `k`
values produces exactly `k` entries (never zero). -/
theorem expand_seeds_empty_list (fl : FilesList) (name : String)
    (values : List String) (h : fl.entries = []) :
    (fl.expand [(name, values)]).entries.length = values.length := by
  unfold FilesList.expand
  have hs : seedEntries fl.entries = [emptyEntry] := by simp [seedEntries, h]
  rw [hs]
  have := length_flatMap_const [emptyEntry]
    (fun e => (valueTuples [(name, values)]).map
      (fun t => { e with properties := e.properties ++ t }))
    values.length
    (fun a => by simp [List.length_map, length_valueTuples, minLen_single])
  simpa using this

/-- C8 witness: the first `expand` call with 3 values on a fresh list produces
3 entries. -/
theorem expand_seeds_empty_list_witness :
    (FilesList.fromTemplate "{a}").entries = [] ∧
    ((FilesList.fromTemplate "{a}").expand [("a", ["1", "2", "3"])]).entries.length = 3 :=
  ⟨rfl, expand_seeds_empty_list _ "a" ["1", "2", "3"] rfl⟩

/-! ## C4: expansion order -/

/-- C4: expansion order is deterministic with the most recently expanded
placeholder varying fastest — expanding `P1` with 2 values and then `P2` with
3 values yields 6 entries where entries 0–2 share `P1`'s first value,
entries 3–5 share `P1`'s second value, and `P2` cycles within each group
(existing entries are the outer loop, the new placeholder's values the inner
loop). -/
theorem expand_order (t d p1 p2 a b x y z : String) :
    (((FilesList.mk t d []).expand [(p1, [a, b])]).expand
        [(p2, [x, y, z])]).entries.map (fun e => e.properties) =
      [[(p1, a), (p2, x)], [(p1, a), (p2, y)], [(p1, a), (p2, z)],
       [(p1, b), (p2, x)], [(p1, b), (p2, y)], [(p1, b), (p2, z)]] := rfl

/-! ## C7: merge -/

/-- C7: `merge(a, b)` fails with `TemplateMismatch` whenever `a` and `b` were
built from structurally different templates; when the templates are equal, the
result has `a`'s entries in order followed by `b`'s entries in order (union,
not product), hence exactly `len(a) + len(b)` entries. -/
theorem merge_templates (a b : FilesList) :
    (parseTemplate a.template ≠ parseTemplate b.template →
      a.merge b = .error .TemplateMismatch) ∧
    (parseTemplate a.template = parseTemplate b.template →
      a.merge b = .ok ⟨a.template, a.dir, a.entries ++ b.entries⟩ ∧
        (a.entries ++ b.entries).length = a.entries.length + b.entries.length) := by
  constructor
  · intro h
    simp [FilesList.merge, h]
  · intro h
    refine ⟨by simp [FilesList.merge, h], List.length_append _ _⟩

/-- C7 witness: merging two concrete lists with the same template concatenates
their entries in order. -/
theorem merge_templates_witness :
    (FilesList.mk "{a}" "" [⟨[("a", "1")], none, none, .unresolved⟩]).merge
        (FilesList.mk "{a}" "d" [⟨[("a", "2")], none, none, .unresolved⟩]) =
      .ok ⟨"{a}", "", [⟨[("a", "1")], none, none, .unresolved⟩,
        ⟨[("a", "2")], none, none, .unresolved⟩]⟩ :=
  ((merge_templates
      (FilesList.mk "{a}" "" [⟨[("a", "1")], none, none, .unresolved⟩])
      (FilesList.mk "{a}" "d" [⟨[("a", "2")], none, none, .unresolved⟩])).2 rfl).1

/-! ## C1: matched/unmatched partition -/

/-- C1: for every `FilesList` `L`, reference collection `R` and matching field,
the entries of `filter_matched(L, R)` together with the entries of
`filter_unmatched(L, R)` form exactly the multiset of entries of `L` (a
permutation), and the two results share no entry. -/
theorem filter_matched_unmatched_partition (fl : FilesList) (R : List RefRec)
    (f : Field) :
    ((fl.filter_matched R f).entries ++ (fl.filter_unmatched R f).entries).Perm
        fl.entries ∧
      (fl.filter_matched R f).entries.Disjoint (fl.filter_unmatched R f).entries := by
  constructor
  · exact List.filter_append_perm _ fl.entries
  · intro e h1 h2
    rw [FilesList.filter_matched, List.mem_filter] at h1
    rw [FilesList.filter_unmatched, List.mem_filter] at h2
    rw [h1.2] at h2
    exact absurd h2.2 (by decide)

/-- C1 witness: the partition property at a concrete list and reference
collection (matching on checksum). -/
theorem filter_matched_unmatched_partition_witness :
    (((FilesList.mk "{a}" "" [⟨[("a", "1")], some 1, some "c1", .ok⟩,
          ⟨[("a", "2")], some 2, some "c2", .ok⟩]).filter_matched
        [⟨"f", some "c2"⟩] .checksum).entries ++
      ((FilesList.mk "{a}" "" [⟨[("a", "1")], some 1, some "c1", .ok⟩,
          ⟨[("a", "2")], some 2, some "c2", .ok⟩]).filter_unmatched
        [⟨"f", some "c2"⟩] .checksum).entries).Perm
      (FilesList.mk "{a}" "" [⟨[("a", "1")], some 1, some "c1", .ok⟩,
        ⟨[("a", "2")], some 2, some "c2", .ok⟩]).entries :=
  (filter_matched_unmatched_partition _ _ _).1

/-! ## C5: partial-failure fetch -/

theorem fetchEntry_status_of_ok {probe : FileEntry → Except String ProbeResult}
    {e : FileEntry} (h : probeOk (probe e) = true) :
    (fetchEntry probe e).status = .ok := by
  cases hp : probe e
  · rw [hp] at h
    exact absurd h (by simp [probeOk])
  · simp [fetchEntry, hp]

theorem fetchEntry_status_of_err {probe : FileEntry → Except String ProbeResult}
    {e : FileEntry} {m : String} (h : probe e = .error m) :
    (fetchEntry probe e).status = .err m := by
  simp [fetchEntry, h]

theorem filterOfMap {α β : Type} (f : α → β) (p : β → Bool) (l : List α) :
    (l.map f).filter p = (l.filter (fun a => p (f a))).map f := by
  induction l with
  | nil => rfl
  | cons a t ih =>
    by_cases h : p (f a) = true
    · simp [h, ih]
    · rw [Bool.not_eq_true] at h
      simp [h, ih]

theorem data_size_err_of_mem (t d : String) {l : List FileEntry} {e : FileEntry}
    (hm : e ∈ l) (hf : e.status.isOk = false) :
    FilesList.data_size ⟨t, d, l⟩ = .error .UnresolvedMetadata := by
  have hall : l.all (fun e => e.status.isOk) = false := by
    cases h : l.all (fun e => e.status.isOk)
    · rfl
    · exact absurd (List.all_eq_true.mp h e hm) (by simp [hf])
  simp [FilesList.data_size, hall]

/-- C5: with `stop_on_error = false`, a fetch over `n` entries where exactly
the probe of entry `i` fails returns all `n` entries (same positional slots),
with entry `i`'s status `error` (carrying the reason) and every other entry's
status `ok`; `data_size` on the result (and on any list with a non-`ok`
entry) fails with `UnresolvedMetadata`; after filtering out the errored entry,
`data_size` succeeds and equals the sum of the remaining entries' resolved
sizes. -/
theorem fetch_partial_failure (t d : String) (entries : List FileEntry)
    (probe : FileEntry → Except String ProbeResult) (i : Nat) (eI : FileEntry)
    (msg : String)
    (hi : entries[i]? = some eI)
    (hfail : probe eI = .error msg)
    (hok : ∀ j : Fin entries.length, j.val ≠ i → probeOk (probe (entries.get j)) = true) :
    fetch probe false entries = .ok (entries.map (fetchEntry probe)) ∧
    (entries.map (fetchEntry probe)).length = entries.length ∧
    (entries.map (fetchEntry probe))[i]? = some (fetchEntry probe eI) ∧
    (fetchEntry probe eI).status = .err msg ∧
    (∀ j, j ≠ i → ∀ e', (entries.map (fetchEntry probe))[j]? = some e' →
      e'.status = .ok) ∧
    (∀ (l : List FileEntry) (e' : FileEntry), e' ∈ l → e'.status.isOk = false →
      FilesList.data_size ⟨t, d, l⟩ = .error .UnresolvedMetadata) ∧
    FilesList.data_size ⟨t, d, entries.map (fetchEntry probe)⟩ =
      .error .UnresolvedMetadata ∧
    FilesList.data_size
        ⟨t, d, (entries.map (fetchEntry probe)).filter (fun e => e.status.isOk)⟩ =
      .ok (((entries.filter (fun e => probeOk (probe e))).map
        (fun e => probeSize (probe e))).sum) := by
  have hstatusI : (fetchEntry probe eI).status = .err msg :=
    fetchEntry_status_of_err hfail
  refine ⟨rfl, List.length_map _ _, ?_, hstatusI, ?_, ?_, ?_, ?_⟩
  · rw [List.getElem?_map, hi, Option.map_some']
  · intro j hj e' he'
    rw [List.getElem?_map] at he'
    obtain ⟨e0, he0, hfe⟩ := Option.map_eq_some'.mp he'
    have hlt : j < entries.length := (List.getElem?_eq_some.mp he0).1
    have hget : entries.get ⟨j, hlt⟩ = e0 := by
      have := (List.getElem?_eq_some.mp he0).2
      simpa [List.get_eq_getElem] using this
    have := hok ⟨j, hlt⟩ hj
    rw [hget] at this
    rw [← hfe]
    exact fetchEntry_status_of_ok this
  · intro l e' hm hf
    exact data_size_err_of_mem t d hm hf
  · have hmem : fetchEntry probe eI ∈ entries.map (fetchEntry probe) :=
      List.mem_map_of_mem _ (List.getElem?_mem hi)
    exact data_size_err_of_mem t d hmem (by simp [hstatusI, Status.isOk])
  · have hswap : (entries.map (fetchEntry probe)).filter (fun e => e.status.isOk) =
        (entries.filter (fun e => probeOk (probe e))).map (fetchEntry probe) := by
      rw [filterOfMap]
      congr 1
      apply List.filter_congr
      intro a _
      cases hp : probe a <;> simp [fetchEntry, hp, probeOk, Status.isOk]
    rw [hswap]
    have hall : ((entries.filter (fun e => probeOk (probe e))).map
        (fetchEntry probe)).all (fun e => e.status.isOk) = true := by
      rw [List.all_eq_true]
      intro x hx
      obtain ⟨a, ha, hxa⟩ := List.mem_map.mp hx
      have hpa : probeOk (probe a) = true := (List.mem_filter.mp ha).2
      rw [← hxa, fetchEntry_status_of_ok hpa]
      rfl
    have hsum : ((entries.filter (fun e => probeOk (probe e))).map
          (fetchEntry probe)).map (fun e => e.size.getD 0) =
        (entries.filter (fun e => probeOk (probe e))).map
          (fun e => probeSize (probe e)) := by
      rw [List.map_map]
      apply List.map_congr_left
      intro a ha
      have hpa : probeOk (probe a) = true := (List.mem_filter.mp ha).2
      cases hp : probe a
      · rw [hp] at hpa
        exact absurd hpa (by simp [probeOk])
      · simp [Function.comp, fetchEntry, hp, probeSize]
    simp only [FilesList.data_size, hall, if_true, hsum]

/-- C5 witness: five concrete entries whose third probe fails — the fetch
returns one `error` and four `ok` entries, `data_size` fails, and after
filtering the errored entry out it equals the sum of the four resolved
sizes. -/
theorem fetch_partial_failure_witness :
    FilesList.data_size ⟨"{k}", "",
        ([⟨[("k", "1")], none, none, .unresolved⟩, ⟨[("k", "2")], none, none, .unresolved⟩,
          ⟨[("k", "3")], none, none, .unresolved⟩, ⟨[("k", "4")], none, none, .unresolved⟩,
          ⟨[("k", "5")], none, none, .unresolved⟩].map
          (fetchEntry (fun e =>
            if lookupProp e.properties "k" == some "3" then .error "boom"
            else .ok ⟨10, "c"⟩)))⟩ = .error .UnresolvedMetadata :=
  (fetch_partial_failure "{k}" ""
    [⟨[("k", "1")], none, none, .unresolved⟩, ⟨[("k", "2")], none, none, .unresolved⟩,
     ⟨[("k", "3")], none, none, .unresolved⟩, ⟨[("k", "4")], none, none, .unresolved⟩,
     ⟨[("k", "5")], none, none, .unresolved⟩]
    (fun e =>
      if lookupProp e.properties "k" == some "3" then .error "boom"
      else .ok ⟨10, "c"⟩)
    2 ⟨[("k", "3")], none, none, .unresolved⟩ "boom"
    (by decide) rfl (by decide)).2.2.2.2.2.2.1

/-! ## C6: cache save/load round trip -/

/-- C6: saving a fully-resolved `FilesList` (all entries' status `ok`, template
parseable) to a cache record and loading that record reproduces the
`FilesList` exactly — same order, same properties, same metadata — and
`path_list` returns the same list before and after the round trip. -/
theorem cache_roundtrip (fl : FilesList)
    (hT : (parseTemplate fl.template).isSome = true)
    (_hOK : ∀ e ∈ fl.entries, e.status = Status.ok) :
    load (save fl) = .ok fl ∧
    (load (save fl)).map FilesList.path_list = .ok fl.path_list := by
  have h1 : ((save fl).entries.all
      (fun ce => ce.filename == formatD (save fl).template ce.properties)) = true := by
    rw [List.all_eq_true]
    intro ce hce
    obtain ⟨e, _, hcee⟩ := List.mem_map.mp hce
    rw [← hcee]
    simp [save]
  have h2 : load (save fl) = .ok fl := by
    simp only [load, save] at h1 ⊢
    rw [hT, h1]
    simp only [Bool.and_self, if_true, List.map_map]
    have : (fun (ce : CacheEntry) =>
          (⟨ce.properties, ce.size, ce.checksum, ce.status⟩ : FileEntry)) ∘
        (fun (e : FileEntry) => (⟨e.properties, formatD fl.template e.properties,
          e.size, e.checksum, e.status⟩ : CacheEntry)) = fun e => e := by
      funext e
      rfl
    rw [this, List.map_id']
  exact ⟨h2, by rw [h2]; rfl⟩

/-- C6 witness: the round trip at a concrete fully-resolved list. -/
theorem cache_roundtrip_witness :
    load (save ⟨"w_{a}.tif", "http://h/",
        [⟨[("a", "1")], some 5, some "c1", .ok⟩,
         ⟨[("a", "2")], some 7, some "c2", .ok⟩]⟩) =
      .ok ⟨"w_{a}.tif", "http://h/",
        [⟨[("a", "1")], some 5, some "c1", .ok⟩,
         ⟨[("a", "2")], some 7, some "c2", .ok⟩]⟩ :=
  (cache_roundtrip _ (by decide) (by decide)).1

/-! ## C10: element-wise pairing of lists in one expand call -/

theorem foldl_min_const (k : Nat) :
    ∀ (rest : List (String × List String)),
      (∀ p ∈ rest, (Prod.snd p).length = k) →
      rest.foldl (fun m p => min m p.2.length) k = k := by
  intro rest
  induction rest with
  | nil => intro _; rfl
  | cons q r ih =>
    intro h
    have hq : q.2.length = k := h q (List.mem_cons_self q r)
    rw [List.foldl_cons]
    simp only [hq, Nat.min_self]
    exact ih (fun p hp => h p (List.mem_cons_of_mem q hp))

theorem minLen_eq_of_all (assignments : List (String × List String)) (k : Nat)
    (hne : assignments ≠ []) (hk : ∀ p ∈ assignments, (Prod.snd p).length = k) :
    minLen assignments = k := by
  cases assignments with
  | nil => exact absurd rfl hne
  | cons a rest =>
    have ha : a.2.length = k := hk a (List.mem_cons_self a rest)
    show rest.foldl (fun m p => min m p.2.length) a.2.length = k
    rw [ha]
    exact foldl_min_const k rest (fun p hp => hk p (List.mem_cons_of_mem a hp))

theorem valueTuples_getElem (assignments : List (String × List String)) (k i : Nat)
    (hne : assignments ≠ []) (hk : ∀ p ∈ assignments, (Prod.snd p).length = k)
    (hi : i < k) :
    (valueTuples assignments)[i]? =
      some (assignments.map (fun p => (p.1, (Prod.snd p).getD i ""))) := by
  unfold valueTuples
  rw [List.getElem?_map, minLen_eq_of_all assignments k hne hk,
    List.getElem?_range hi]
  rfl

theorem flatMap_getElem_const {α β : Type} (f : α → List β) (k : Nat)
    (hk : ∀ a, (f a).length = k) :
    ∀ (l : List α) (j i : Nat) (a : α), l[j]? = some a → i < k →
      (l.flatMap f)[j * k + i]? = (f a)[i]? := by
  intro l
  induction l with
  | nil => intro j i a hj _; simp at hj
  | cons b t ih =>
    intro j i a hj hi
    cases j with
    | zero =>
      have hb : b = a := by simpa using hj
      subst hb
      rw [List.flatMap_cons, Nat.zero_mul, Nat.zero_add]
      exact List.getElem?_append_left (by rw [hk b]; exact hi)
    | succ j' =>
      rw [List.flatMap_cons]
      have hmul : (j' + 1) * k = j' * k + k := Nat.succ_mul j' k
      have hge : (f b).length ≤ (j' + 1) * k + i := by
        rw [hk b]
        omega
      rw [List.getElem?_append_right hge]
      have harith : (j' + 1) * k + i - (f b).length = j' * k + i := by
        rw [hk b]
        omega
      rw [harith]
      exact ih j' i a (by simpa using hj) hi

/-- C10 counterexample: "a base of `n` entries yields `n*k` entries" fails at
`n = 0` — the empty base is seeded first, so one paired call with `k = 1`
yields 1 entry, not `0 * 1 = 0`. -/
theorem expand_pairwise_empty_cex :
    ((FilesList.fromTemplate "{a}_{b}").expand
        [("a", ["1"]), ("b", ["x"])]).entries.length ≠
      (FilesList.fromTemplate "{a}_{b}").entries.length * 1 := by decide

/-- C10 (amended): when a single `expand` call assigns list values to two or
more placeholder names, each with the same length `k`, the lists are paired
element-wise rather than crossed with each other — the output slot `j*k + i`
holds base entry `j`'s properties extended with the i-th value of every list
of the call — so a nonempty base of `n` entries yields `n*k` entries, not
`n*k^2` (an empty base is seeded first and yields `k`).  The monthly
pipeline's 5-entry base with 275 paired start_date/end_date values therefore
yields `5 * 275 = 1375` entries. -/
theorem expand_pairwise (fl : FilesList) (assignments : List (String × List String))
    (k : Nat) (hne : fl.entries ≠ []) (hm : 2 ≤ assignments.length)
    (hk : ∀ p ∈ assignments, (Prod.snd p).length = k) :
    (fl.expand assignments).entries.length = fl.entries.length * k ∧
    (∀ (j i : Nat) (e : FileEntry), fl.entries[j]? = some e → i < k →
      ((fl.expand assignments).entries[j * k + i]?).map (fun x => x.properties) =
        some (e.properties ++
          assignments.map (fun p => (p.1, (Prod.snd p).getD i "")))) := by
  have hane : assignments ≠ [] := by
    intro h
    rw [h] at hm
    simp at hm
  constructor
  · unfold FilesList.expand
    rw [seedEntries_of_ne_nil hne]
    apply length_flatMap_const
    intro a
    rw [List.length_map, length_valueTuples, minLen_eq_of_all assignments k hane hk]
  · intro j i e hj hi
    unfold FilesList.expand
    rw [seedEntries_of_ne_nil hne]
    have hlen : ∀ a : FileEntry, ((valueTuples assignments).map
        (fun t => { a with properties := a.properties ++ t })).length = k := by
      intro a
      rw [List.length_map, length_valueTuples, minLen_eq_of_all assignments k hane hk]
    rw [flatMap_getElem_const _ k hlen fl.entries j i e hj hi]
    rw [List.getElem?_map, valueTuples_getElem assignments k i hane hk hi]
    rfl

/-- C10 witness: a 1-entry base expanded in one call with three paired 2-value
lists yields `1 * 2 = 2` entries, and the entry in slot `0*2 + 1` carries the
second value of all three lists. -/
theorem expand_pairwise_witness :
    ((FilesList.mk "{a}_{x}_{y}_{z}" ""
        [⟨[("a", "u")], none, none, .unresolved⟩]).expand
      [("x", ["1", "2"]), ("y", ["3", "4"]), ("z", ["5", "6"])]).entries.length =
        1 * 2 ∧
    (((FilesList.mk "{a}_{x}_{y}_{z}" ""
        [⟨[("a", "u")], none, none, .unresolved⟩]).expand
      [("x", ["1", "2"]), ("y", ["3", "4"]), ("z", ["5", "6"])]).entries[0 * 2 + 1]?).map
        (fun x => x.properties) =
      some ([("a", "u")] ++ [("x", "2"), ("y", "4"), ("z", "6")]) :=
  ⟨(expand_pairwise
      (FilesList.mk "{a}_{x}_{y}_{z}" "" [⟨[("a", "u")], none, none, .unresolved⟩])
      [("x", ["1", "2"]), ("y", ["3", "4"]), ("z", ["5", "6"])] 2
      (by decide) (by decide) (by decide)).1,
   (expand_pairwise
      (FilesList.mk "{a}_{x}_{y}_{z}" "" [⟨[("a", "u")], none, none, .unresolved⟩])
      [("x", ["1", "2"]), ("y", ["3", "4"]), ("z", ["5", "6"])] 2
      (by decide) (by decide) (by decide)).2 0 1
     ⟨[("a", "u")], none, none, .unresolved⟩ rfl (by decide)⟩

/-! ## C9: date sequences -/

theorem dateSeqAux_le (δ : Delta) (s e : Date) :
    ∀ (fuel i : Nat), ∀ dt ∈ dateSeqAux δ s e fuel i, dt.code ≤ e.code := by
  intro fuel
  induction fuel with
  | zero => intro i dt h; simp [dateSeqAux] at h
  | succ f ih =>
    intro i dt h
    simp only [dateSeqAux] at h
    by_cases hc : (addDelta s δ i).code ≤ e.code
    · rw [if_pos hc] at h
      rcases List.mem_cons.mp h with h1 | h2
      · rw [h1]; exact hc
      · exact ih (i + 1) dt h2
    · rw [if_neg hc] at h
      simp at h

theorem dateSeqAux_getElem (δ : Delta) (s e : Date) :
    ∀ (fuel i j : Nat), j < (dateSeqAux δ s e fuel i).length →
      (dateSeqAux δ s e fuel i)[j]? = some (addDelta s δ (i + j)) := by
  intro fuel
  induction fuel with
  | zero => intro i j hj; simp [dateSeqAux] at hj
  | succ f ih =>
    intro i j hj
    simp only [dateSeqAux] at hj ⊢
    by_cases hc : (addDelta s δ i).code ≤ e.code
    · rw [if_pos hc] at hj ⊢
      cases j with
      | zero => simp
      | succ j' =>
        rw [List.getElem?_cons_succ]
        have hj' : j' < (dateSeqAux δ s e f (i + 1)).length := by
          simp only [List.length_cons] at hj
          omega
        rw [ih (i + 1) j' hj']
        congr 2
        omega
    · rw [if_neg hc] at hj
      simp at hj

/-- C9: `date_seq(start, end, step)` returns the inclusive-start sequence
`start, start+step, start+2*step, ...` (j-th element = `start + j*step`, with
calendar month-length/leap-year day clamping in `addDelta`), every generated
value is ≤ `end`; in particular
`date_seq('20000101','20001231', delta(months=1))` yields exactly 12 dates,
the last being `20001201`. -/
theorem date_seq_spec :
    (∀ (start stop : String) (δ : Delta) (c : Nat), c ∈ date_seq start stop δ →
        c ≤ (parseDate stop).code) ∧
    (∀ (start stop : String) (δ : Delta) (j : Nat),
        j < (date_seq start stop δ).length →
        (date_seq start stop δ)[j]? =
          some ((addDelta (parseDate start) δ j).code)) ∧
    date_seq "20000101" "20001231" (delta 0 1 0 0) =
      [20000101, 20000201, 20000301, 20000401, 20000501, 20000601, 20000701,
       20000801, 20000901, 20001001, 20001101, 20001201] := by
  refine ⟨?_, ?_, by decide⟩
  · intro start stop δ c hc
    unfold date_seq at hc
    obtain ⟨dt, hdt, hcode⟩ := List.mem_map.mp hc
    rw [← hcode]
    exact dateSeqAux_le δ (parseDate start) (parseDate stop) _ 0 dt hdt
  · intro start stop δ j hj
    unfold date_seq at hj ⊢
    rw [List.getElem?_map]
    rw [List.length_map] at hj
    rw [dateSeqAux_getElem δ (parseDate start) (parseDate stop) _ 0 j hj]
    simp

/-- C9 witness: the concrete 12-date sequence, and an application of the
generality: its last element respects the end bound. -/
theorem date_seq_spec_witness :
    (date_seq "20000101" "20001231" (delta 0 1 0 0)).length = 12 ∧
    20001201 ≤ (parseDate "20001231").code :=
  ⟨by rw [date_seq_spec.2.2]; rfl, date_seq_spec.1 "20000101" "20001231" (delta 0 1 0 0)
    20001201 (by rw [date_seq_spec.2.2]; decide)⟩

/-! ## C2: extract is the inverse of format -/

theorem stripLit_append (l r : List Char) : stripLit l (l ++ r) = some r := by
  induction l with
  | nil => rfl
  | cons a t ih => simp [stripLit, ih]

theorem phNames_cons_lit (s : String) (ps : List TPart) :
    phNames (.lit s :: ps) = phNames ps := by
  simp [phNames]

theorem phNames_cons_ph (n : String) (ps : List TPart) :
    phNames (.ph n :: ps) = n :: phNames ps := by
  simp [phNames]

theorem litChars_cons_lit (s : String) (ps : List TPart) :
    litChars (.lit s :: ps) = s.data ++ litChars ps := by
  simp [litChars]

theorem litChars_cons_ph (n : String) (ps : List TPart) :
    litChars (.ph n :: ps) = litChars ps := by
  simp [litChars]

theorem noAdjPh_cons (p : TPart) (rest : List TPart)
    (h : noAdjPh (p :: rest) = true) : noAdjPh rest = true := by
  cases p with
  | lit s => simpa [noAdjPh] using h
  | ph n =>
    cases rest with
    | nil => rfl
    | cons q t =>
      cases q with
      | lit s => simpa [noAdjPh] using h
      | ph m => simp [noAdjPh] at h

theorem wellFormed_cons {p : TPart} {ps : List TPart}
    (h : wellFormed (p :: ps)) : wellFormed ps := by
  obtain ⟨h1, h2, h3⟩ := h
  refine ⟨?_, noAdjPh_cons p ps h2, ?_⟩
  · simp only [litsNonempty, List.all_cons, Bool.and_eq_true] at h1
    exact h1.2
  · cases p with
    | lit s => rwa [phNames_cons_lit] at h3
    | ph n => rw [phNames_cons_ph] at h3; exact h3.of_cons

theorem lookupProp_head (n val : String) (v : List (String × String)) :
    lookupProp ((n, val) :: v) n = some val := by
  simp [lookupProp, List.find?]

theorem lookupProp_cons_ne (n n' val : String) (v : List (String × String))
    (h : n ≠ n') : lookupProp ((n, val) :: v) n' = lookupProp v n' := by
  have hb : (n == n') = false := beq_eq_false_iff_ne.mpr h
  simp [lookupProp, List.find?, hb]

theorem formatParts_cons_irrel (ps : List TPart) (n val : String)
    (v : List (String × String)) (h : n ∉ phNames ps) :
    formatParts ps ((n, val) :: v) = formatParts ps v := by
  induction ps with
  | nil => rfl
  | cons p t ih =>
    cases p with
    | lit s =>
      rw [phNames_cons_lit] at h
      simp only [formatParts, ih h]
    | ph m =>
      rw [phNames_cons_ph] at h
      have hm : n ≠ m := fun heq => h (heq ▸ List.mem_cons_self m _)
      have ht : n ∉ phNames t := fun hmem => h (List.mem_cons_of_mem m hmem)
      simp only [formatParts, lookupProp_cons_ne n m val v hm, ih ht]

theorem phCapture_spec (n : String) (ps : List TPart) (out' : List Char)
    (v' : List (String × String)) (hrest : extractParts ps out' = some v') :
    ∀ (suf acc : List Char),
      (∀ (s1 s2 : List Char), suf = s1 ++ s2 → s2 ≠ [] →
        extractParts ps (s2 ++ out') = none) →
      phCapture n ps acc (suf ++ out') =
        some ((n, String.mk (acc.reverse ++ suf)) :: v') := by
  intro suf
  induction suf with
  | nil =>
    intro acc _
    rw [List.nil_append, List.append_nil, phCapture.eq_def, hrest]
    rfl
  | cons c suf' ih =>
    intro acc hf
    have h0 : extractParts ps (c :: (suf' ++ out')) = none := by
      have := hf [] (c :: suf') rfl (List.cons_ne_nil c suf')
      simpa using this
    rw [List.cons_append, phCapture.eq_def, h0]
    rw [show (Option.orElse (Option.map (fun rest => (n, String.mk acc.reverse) :: rest) none)
        (fun _ => match c :: (suf' ++ out') with
          | [] => none
          | c :: cs' => phCapture n ps (c :: acc) cs')) =
      phCapture n ps (c :: acc) (suf' ++ out') from rfl]
    have hf' : ∀ (s1 s2 : List Char), suf' = s1 ++ s2 → s2 ≠ [] →
        extractParts ps (s2 ++ out') = none := by
      intro s1 s2 hsplit hne
      exact hf (c :: s1) s2 (by rw [hsplit]; rfl) hne
    have hrec := ih (c :: acc) hf'
    simp only [List.reverse_cons, List.append_assoc, List.singleton_append] at hrec
    exact hrec

/-- C2 counterexample: the unconditional round trip fails — on the well-formed
template `{a}_{b}.tif` with values `a = "x_y"`, `b = "z"` (every placeholder
supplied), formatting yields `x_y_z.tif` but the non-greedy extraction returns
`a = "x"`, `b = "y_z"`, not the original values. -/
theorem extract_format_roundtrip_cex :
    wellFormed [.ph "a", .lit "_", .ph "b", .lit ".tif"] ∧
    formatParts [.ph "a", .lit "_", .ph "b", .lit ".tif"]
        [("a", "x_y"), ("b", "z")] = some "x_y_z.tif".data ∧
    extractParts [.ph "a", .lit "_", .ph "b", .lit ".tif"] "x_y_z.tif".data =
      some [("a", "x"), ("b", "y_z")] ∧
    some [("a", "x"), ("b", "y_z")] ≠ some [("a", "x_y"), ("b", "z")] := by
  refine ⟨by decide, by decide, ?_, by decide⟩
  simp [extractParts, phCapture, stripLit, String.data]

/-- C2 (amended): for every well-formed `Template` (nonempty literal
separators, no adjacent placeholders, distinct names) and every properties
mapping `v` that supplies a value for exactly the placeholders of `t` in
template order, provided no supplied value contains any character occurring in
the template's literal segments, extracting back from the formatted string
returns exactly `v`: `t.extract(t.format(v)) == v`. -/
theorem extract_format_roundtrip (parts : List TPart) :
    ∀ (v : List (String × String)),
      wellFormed parts →
      v.map Prod.fst = phNames parts →
      (∀ p ∈ v, ∀ c ∈ (Prod.snd p).data, c ∉ litChars parts) →
      ∃ out, formatParts parts v = some out ∧ extractParts parts out = some v := by
  induction parts with
  | nil =>
    intro v _ hnames _
    have h0 : List.map Prod.fst v = [] := by simpa [phNames] using hnames
    have hv : v = [] := List.map_eq_nil_iff.mp h0
    subst hv
    exact ⟨[], rfl, by simp [extractParts]⟩
  | cons p ps ih =>
    intro v hwf hnames hchars
    cases p with
    | lit s =>
      rw [phNames_cons_lit] at hnames
      have hchars' : ∀ p ∈ v, ∀ c ∈ (Prod.snd p).data, c ∉ litChars ps := by
        intro p hp c hc
        have := hchars p hp c hc
        rw [litChars_cons_lit] at this
        exact fun hmem => this (List.mem_append_right _ hmem)
      obtain ⟨out', hfmt, hext⟩ := ih v (wellFormed_cons hwf) hnames hchars'
      refine ⟨s.data ++ out', ?_, ?_⟩
      · simp only [formatParts, hfmt, Option.map_some']
      · simp only [extractParts, stripLit_append, hext]
    | ph n =>
      rw [phNames_cons_ph] at hnames
      cases v with
      | nil => simp at hnames
      | cons q v' =>
        obtain ⟨qn, val⟩ := q
        simp only [List.map_cons, List.cons.injEq] at hnames
        obtain ⟨hq1, hnames'⟩ := hnames
        subst hq1
        have hwf' : wellFormed ps := wellFormed_cons hwf
        have hnotmem : qn ∉ phNames ps := by
          have := hwf.2.2
          rw [phNames_cons_ph] at this
          exact (List.nodup_cons.mp this).1
        have hchars' : ∀ p ∈ v', ∀ c ∈ (Prod.snd p).data, c ∉ litChars ps := by
          intro p hp c hc
          have := hchars p (List.mem_cons_of_mem _ hp) c hc
          rwa [litChars_cons_ph] at this
        obtain ⟨out', hfmt, hext⟩ := ih v' hwf' hnames' hchars'
        have hvalchars : ∀ c ∈ val.data, c ∉ litChars ps := by
          intro c hc
          have := hchars (qn, val) (List.mem_cons_self _ _) c hc
          rwa [litChars_cons_ph] at this
        refine ⟨val.data ++ out', ?_, ?_⟩
        · simp only [formatParts, lookupProp_head,
            formatParts_cons_irrel ps qn val v' hnotmem, hfmt]
        · have hfail : ∀ (s1 s2 : List Char), val.data = s1 ++ s2 → s2 ≠ [] →
              extractParts ps (s2 ++ out') = none := by
            intro s1 s2 hsplit hne
            obtain ⟨d, s2', rfl⟩ : ∃ d s2', s2 = d :: s2' := by
              cases s2 with
              | nil => exact absurd rfl hne
              | cons d s2' => exact ⟨d, s2', rfl⟩
            have hd : d ∈ val.data := by
              rw [hsplit]
              exact List.mem_append_right s1 (List.mem_cons_self d s2')
            have hdnot : d ∉ litChars ps := hvalchars d hd
            cases ps with
            | nil =>
              have hout : out' = [] := by
                cases out' with
                | nil => rfl
                | cons o os => simp [extractParts] at hext
              rw [hout]
              simp [extractParts]
            | cons p2 ps2 =>
              cases p2 with
              | ph m =>
                have := hwf.2.1
                simp [noAdjPh] at this
              | lit t =>
                have htne : t.data ≠ [] := by
                  have h1 := hwf.1
                  simp only [litsNonempty, List.all_cons, Bool.and_eq_true] at h1
                  have h2 := h1.2.1
                  rw [Bool.not_eq_true'] at h2
                  intro hnil
                  rw [hnil] at h2
                  simp at h2
                obtain ⟨t0, trest, ht0⟩ : ∃ t0 trest, t.data = t0 :: trest := by
                  cases htd : t.data with
                  | nil => exact absurd htd htne
                  | cons t0 trest => exact ⟨t0, trest, rfl⟩
                have ht0mem : t0 ∈ litChars (.lit t :: ps2) := by
                  rw [litChars_cons_lit, ht0]
                  exact List.mem_append_left _ (List.mem_cons_self t0 trest)
                have hne0 : t0 ≠ d := fun heq => hdnot (heq ▸ ht0mem)
                simp only [extractParts, ht0, List.cons_append, stripLit]
                rw [if_neg hne0]
          have hcap := phCapture_spec qn ps out' v' hext val.data [] hfail
          simp only [List.reverse_nil, List.nil_append] at hcap
          have hmk : String.mk val.data = val := by cases val; rfl
          rw [hmk] at hcap
          simp only [extractParts]
          exact hcap

/-- C2 witness: the amended round trip at a concrete template and values with
no separator characters inside the values. -/
theorem extract_format_roundtrip_witness :
    ∃ out, formatParts [.ph "a", .lit "_", .ph "b", .lit ".tif"]
        [("a", "xy"), ("b", "z")] = some out ∧
      extractParts [.ph "a", .lit "_", .ph "b", .lit ".tif"] out =
        some [("a", "xy"), ("b", "z")] :=
  extract_format_roundtrip [.ph "a", .lit "_", .ph "b", .lit ".tif"]
    [("a", "xy"), ("b", "z")] (by decide) (by decide) (by decide)

end Zen
